import Mathlib

/-!
Verification development for the selector-resolution and field-orchestration
engine of mercury-parser (src/extractors/root-extractor.js).

The DOM substrate is modelled as a rose tree of element and text nodes.  The
CSS selector semantics of the substrate are modelled as an abstract matching
function from a selector string and a node to a Bool; a query over a document
collects, in document order, the nodes on which the matcher fires.  External
collaborators (per-field-type cleaners, the markdown converter, the generic
extractor) are passed in as function parameters, following the interface
contracts the design gives them.
-/

set_option autoImplicit false

namespace Mercury

/-- DOM node of the parsed document: an element carrying a tag name, an
attribute list and child nodes, or a text node. -/
inductive Node where
  | elem (tag : String) (attrs : List (String × String)) (children : List Node)
  | text (s : String)

mutual

/-- Boolean equality on nodes. -/
def Node.beq : Node → Node → Bool
  | .text s, .text s2 => s == s2
  | .elem t a ch, .elem t2 a2 ch2 => t == t2 && a == a2 && Node.beqList ch ch2
  | _, _ => false

/-- Boolean equality on node lists. -/
def Node.beqList : List Node → List Node → Bool
  | [], [] => true
  | n :: ns, n2 :: ns2 => Node.beq n n2 && Node.beqList ns ns2
  | _, _ => false

end

mutual

theorem Node.beq_iff : ∀ a b : Node, Node.beq a b = true ↔ a = b
  | .text s, .text s2 => by simp [Node.beq]
  | .text _, .elem _ _ _ => by simp [Node.beq]
  | .elem _ _ _, .text _ => by simp [Node.beq]
  | .elem t a ch, .elem t2 a2 ch2 => by
      simp [Node.beq, Node.beqList_iff ch ch2, and_assoc]

theorem Node.beqList_iff : ∀ a b : List Node, Node.beqList a b = true ↔ a = b
  | [], [] => by simp [Node.beqList]
  | [], _ :: _ => by simp [Node.beqList]
  | _ :: _, [] => by simp [Node.beqList]
  | n :: ns, n2 :: ns2 => by
      simp [Node.beqList, Node.beq_iff n n2, Node.beqList_iff ns ns2]

end

instance : DecidableEq Node := fun a b => decidable_of_iff _ (Node.beq_iff a b)

/-- Whitespace trimming as the JS String.prototype.trim used by the source:
drop leading and trailing whitespace characters. -/
def jsTrim (s : String) : String :=
  String.mk (((s.data.dropWhile Char.isWhitespace).reverse.dropWhile
    Char.isWhitespace).reverse)

/-- Selector semantics of the external DOM substrate: whether a CSS selector
string matches a given node. -/
abbrev Matcher : Type := String → Node → Bool

mutual

/-- Nodes within a subtree (the subtree root included) matched by a selector,
in document (preorder) order.  Text nodes are never elements, but the matcher
itself decides membership, mirroring the substrate as an oracle. -/
def queryNode (m : Matcher) (sel : String) : Node → List Node
  | .text s => if m sel (.text s) then [.text s] else []
  | .elem t a ch =>
      (if m sel (.elem t a ch) then [.elem t a ch] else []) ++
        queryForest m sel ch

/-- Nodes within a forest matched by a selector, in document order. -/
def queryForest (m : Matcher) (sel : String) : List Node → List Node
  | [] => []
  | n :: ns => queryNode m sel n ++ queryForest m sel ns

end

mutual

/-- Text content of a node: concatenation of all text leaves, in order. -/
def textOfNode : Node → String
  | .text s => s
  | .elem _ _ ch => textOfForest ch

/-- Text content of a forest. -/
def textOfForest : List Node → String
  | [] => ""
  | n :: ns => textOfNode n ++ textOfForest ns

end

/-- Attribute lookup on a node; a text node has no attributes, and an absent
attribute reads as undefined (none), as in the substrate. -/
def getAttr (name : String) : Node → Option String
  | .elem _ attrs _ => (attrs.find? (fun p => p.1 == name)).map (fun p => p.2)
  | .text _ => none

/-- Attribute of the first element matched by a selector over the whole
document, mirroring a dollar(sel).attr(name) read on the substrate. -/
def attrFirst (m : Matcher) (doc : List Node) (sel attrName : String) :
    Option String :=
  match queryForest m sel doc with
  | [] => none
  | n :: _ => getAttr attrName n

/-- Concatenated text of every element matched by a selector over the whole
document, mirroring a dollar(sel).text() read on the substrate. -/
def textOfMatches (m : Matcher) (doc : List Node) (sel : String) : String :=
  String.join ((queryForest m sel doc).map textOfNode)

/-- Candidate selector rule: a plain string, or an array of strings.  The
source distinguishes the two with Array.isArray; a two-element array is read
as a selector plus attribute name outside HTML-extraction mode. -/
inductive Selector where
  | str (s : String)
  | arr (ss : List String)
deriving DecidableEq

/-- Shape-specific matching predicate of findMatchingSelector, transcribed
from root-extractor.js lines 44-66.  An array selector in HTML mode requires
every member selector to match at least one element; outside HTML mode its
first two members are read as a selector and an attribute name, and it
matches when exactly one element matches the selector and that element has a
non-empty, non-blank attribute.  A string selector matches when exactly one
element matches it and its trimmed text is non-empty. -/
def selectorMatches (m : Matcher) (doc : List Node) (extractHtml : Bool) :
    Selector → Bool
  | .arr ss =>
      if extractHtml then
        ss.foldl (fun acc s => acc && !(queryForest m s doc).isEmpty) true
      else
        match ss with
        | s :: attrName :: _ =>
            (queryForest m s doc).length == 1 &&
              (match attrFirst m doc s attrName with
               | some a => a != "" && jsTrim a != ""
               | none => false)
        | _ => false
  | .str s =>
      (queryForest m s doc).length == 1 &&
        jsTrim (textOfMatches m doc s) != ""

/-- Transcription of findMatchingSelector (root-extractor.js lines 43-67):
the first selector in declared order whose shape-specific predicate holds. -/
def findMatchingSelector (m : Matcher) (doc : List Node)
    (selectors : List Selector) (extractHtml : Bool) : Option Selector :=
  selectors.find? (selectorMatches m doc extractHtml)

/-- Membership test used by clean removal: does any selector of the clean
list match the node (the source joins the list with commas into one query,
which matches the union of the member selectors). -/
def matchesAny (m : Matcher) (sels : List String) (n : Node) : Bool :=
  sels.any (fun s => m s n)

mutual

/-- Removal of matched descendants inside a node, transcribing the removal
call of cleanBySelectors: the node itself is kept, and every descendant
matched by some selector of the list is removed with its whole subtree. -/
def removeNode (m : Matcher) (sels : List String) : Node → Node
  | .text s => .text s
  | .elem t a ch => .elem t a (removeForest m sels ch)

/-- Removal over a forest: matched roots are dropped, survivors are cleaned
recursively. -/
def removeForest (m : Matcher) (sels : List String) : List Node → List Node
  | [] => []
  | n :: ns =>
      if matchesAny m sels n then removeForest m sels ns
      else removeNode m sels n :: removeForest m sels ns

end

/-- Transcription of cleanBySelectors (root-extractor.js lines 7-13): with no
clean list the region is returned untouched, otherwise every match of the
combined selector list inside the region is removed. -/
def cleanBySelectors (m : Matcher) (content : Node)
    (clean : Option (List String)) : Node :=
  match clean with
  | none => content
  | some sels => removeNode m sels content

/-- Transform entry of a transforms map: a replacement tag name, or a
function of the matched node.  The source applies a function value and, only
when it returns a string, converts the node to that tag; any other return is
a no-op.  The callback is modelled as a pure function of the matched
subtree. -/
inductive TransformVal where
  | toTag (t : String)
  | fn (f : Node → Option String)

/-- Modelled from the spec: convertNodeTo, imported by the source from
utils/dom and absent from the sample, structurally converts an element to a
given tag name, preserving children and attributes. -/
def convertNodeTo (tag : String) : Node → Node
  | .elem _ a ch => .elem tag a ch
  | .text s => .text s

/-- Tag a matched node ends up with under one transform entry: a string entry
renames outright; a function entry renames only when it returns a string. -/
def renamedTag (v : TransformVal) (n : Node) (t : String) : String :=
  match v with
  | .toTag u => u
  | .fn f =>
      match f n with
      | some u => u
      | none => t

mutual

/-- One transform entry applied to every matched node of a subtree, the
subtree root included.  The match is decided on the node as found and a
conversion only renames the tag, so processing descendants afterwards agrees
with the source, which collects all matches before converting each. -/
def transformNode (m : Matcher) (key : String) (v : TransformVal) :
    Node → Node
  | .text s => .text s
  | .elem t a ch =>
      .elem (if m key (.elem t a ch) then renamedTag v (.elem t a ch) t else t)
        a (transformForest m key v ch)

/-- One transform entry applied to a forest. -/
def transformForest (m : Matcher) (key : String) (v : TransformVal) :
    List Node → List Node
  | [] => []
  | n :: ns => transformNode m key v n :: transformForest m key v ns

end

/-- One transform entry applied inside a region: the query for the key
matches descendants only, so the region root itself is never converted. -/
def transformRegion (m : Matcher) (key : String) (v : TransformVal) :
    Node → Node
  | .text s => .text s
  | .elem t a ch => .elem t a (transformForest m key v ch)

/-- Transcription of transformElements (root-extractor.js lines 16-41): the
keys of the transforms map are applied to the region one after the other, in
declaration order of the map. -/
def transformElements (m : Matcher) (content : Node)
    (transforms : Option (List (String × TransformVal))) : Node :=
  match transforms with
  | none => content
  | some ts => ts.foldl (fun c kv => transformRegion m kv.1 kv.2 c) content

/-- JS value produced by field resolution: null, undefined, a string, a
number, or an object carrying url and domain members (the url_and_domain
result shape). -/
inductive JSVal where
  | vnull
  | vundefined
  | vstr (s : String)
  | vnum (n : Int)
  | vpair (url domain : JSVal)
deriving DecidableEq

/-- JS truthiness of a resolved value: null, undefined, the empty string and
the number zero are falsy; objects are always truthy. -/
def truthy : JSVal → Bool
  | .vnull => false
  | .vundefined => false
  | .vstr s => s != ""
  | .vnum n => n != 0
  | .vpair _ _ => true

/-- The url member read off a destructured result; undefined on values that
carry no such member. -/
def JSVal.urlField : JSVal → JSVal
  | .vpair u _ => u
  | _ => .vundefined

/-- The domain member read off a destructured result; undefined on values
that carry no such member. -/
def JSVal.domainField : JSVal → JSVal
  | .vpair _ d => d
  | _ => .vundefined

/-- Output representation requested for HTML-extraction fields. -/
inductive ContentType where
  | html
  | text
  | markdown
deriving DecidableEq

/-- The named field types of the extraction result. -/
inductive FieldType where
  | title
  | content
  | author
  | date_published
  | lead_image_url
  | dek
  | next_page_url
  | excerpt
  | word_count
  | direction
  | url_and_domain
deriving DecidableEq

/-- Field extraction spec of a custom rule set: ordered candidate selectors,
an optional clean list, an optional ordered transforms map, and the
defaultCleaner flag defaulting to true. -/
structure ExtractionSpec where
  selectors : List Selector
  clean : Option (List String) := none
  transforms : Option (List (String × TransformVal)) := none
  defaultCleaner : Bool := true

/-- Rules a custom extractor holds for one field: a hardcoded string constant
or a full spec. -/
inductive ExtractionOpts where
  | strConst (s : String)
  | spec (e : ExtractionSpec)

/-- Options bag threaded through the orchestrator, the resolver and the
external collaborators.  The parsed document stands in for the query handle;
context fields already extracted (title, content, excerpt) ride along, absent
ones reading as undefined. -/
structure Opts where
  doc : List Node
  contentOnly : Bool := false
  extractedTitle : JSVal := .vundefined
  contentType : ContentType := .html
  fallback : Bool := true
  extractHtml : Bool := false
  title : JSVal := .vundefined
  content : JSVal := .vundefined
  excerpt : JSVal := .vundefined

/-- The twelve-field record assembled by the orchestrator. -/
structure FullResult where
  title : JSVal
  content : JSVal
  author : JSVal
  date_published : JSVal
  lead_image_url : JSVal
  dek : JSVal
  next_page_url : JSVal
  url : JSVal
  domain : JSVal
  excerpt : JSVal
  word_count : JSVal
  direction : JSVal
deriving DecidableEq

/-- Result of RootExtractor.extract: the full record, or, in content-only
mode, a record holding solely the content key. -/
inductive ExtractOut where
  | full (r : FullResult)
  | contentOnly (content : JSVal)
deriving DecidableEq

/-- An extractor definition: its domain, its per-field rules, and its own
extract method, consulted only when the domain is the universal wildcard. -/
structure Extractor where
  domain : String
  fields : FieldType → Option ExtractionOpts
  extractFull : Opts → ExtractOut

/-- External collaborators of the core, per their interface contracts: the
DOM substrate selector semantics, the per-field-type cleaner over a region
(handed the defaultCleaner flag it receives in its options), the
per-field-type cleaner over a string result, the markdown converter, and the
generic extractor strategy per field type. -/
structure Externals where
  m : Matcher
  regionCleaner : FieldType → Bool → Node → Node
  stringCleaner : FieldType → String → JSVal
  turndown : String → String
  generic : FieldType → Opts → JSVal

/-- Serialization of an attribute list. -/
def attrsHtml : List (String × String) → String
  | [] => ""
  | p :: rest => " " ++ p.1 ++ "=\"" ++ p.2 ++ "\"" ++ attrsHtml rest

mutual

/-- Raw markup serialization of a node. -/
def htmlOfNode : Node → String
  | .text s => s
  | .elem t a ch =>
      "<" ++ t ++ attrsHtml a ++ ">" ++ htmlOfForest ch ++ "</" ++ t ++ ">"

/-- Raw markup serialization of a forest. -/
def htmlOfForest : List Node → String
  | [] => ""
  | n :: ns => htmlOfNode n ++ htmlOfForest ns

end

/-- Region built by select in HTML-extraction mode (lines 102-116): an array
selector unions the matches of all its members into a wrapper div, which is
then wrapped once more; a string selector wraps its matched element in a div.
Member matches are unioned in selector-list order. -/
def wrapRegion (m : Matcher) (doc : List Node) : Selector → Node
  | .arr ss =>
      .elem ("div") []
        [.elem ("div") [] (ss.flatMap (fun s => queryForest m s doc))]
  | .str s => .elem ("div") [] (queryForest m s doc)

/-- Rendering of the mutated region by requested content type (lines
123-132): raw markup, plain text, or markdown converted from the markup. -/
def renderContent (ext : Externals) (ct : ContentType) (n : Node) : JSVal :=
  match ct with
  | .html => .vstr (htmlOfNode n)
  | .text => .vstr (textOfNode n)
  | .markdown => .vstr (ext.turndown (htmlOfNode n))

/-- Transcription of select (root-extractor.js lines 69-160).  The falsy
check on extractionOpts makes absent rules and the empty string constant
yield null; a non-empty string constant is returned unchanged.  Otherwise the
first matching selector drives either the HTML pipeline (wrap, transform,
clean, per-type cleaner, render) or the attribute and text modes, whose
string result passes through the per-type cleaner unless defaultCleaner is
disabled. -/
def select (ext : Externals) (t : FieldType) (o : Opts)
    (extractionOpts : Option ExtractionOpts) : JSVal :=
  match extractionOpts with
  | none => .vnull
  | some (.strConst s) => if s == "" then .vnull else .vstr s
  | some (.spec e) =>
      match findMatchingSelector ext.m o.doc e.selectors o.extractHtml with
      | none => .vnull
      | some matchingSelector =>
          if o.extractHtml then
            renderContent ext o.contentType
              (ext.regionCleaner t e.defaultCleaner
                (cleanBySelectors ext.m
                  (transformElements ext.m
                    (wrapRegion ext.m o.doc matchingSelector) e.transforms)
                  e.clean))
          else
            match matchingSelector with
            | .arr ss =>
                match ss with
                | s :: attrName :: _ =>
                    let result := jsTrim ((attrFirst ext.m o.doc s attrName).getD (""))
                    if e.defaultCleaner then ext.stringCleaner t result
                    else .vstr result
                | _ =>
                    -- A short array selector never matches outside HTML mode,
                    -- so this arm is unreachable after a successful find.
                    .vnull
            | .str s =>
                let cleaned := (queryForest ext.m s o.doc).map
                  (fun n => cleanBySelectors ext.m n e.clean)
                let transformed := cleaned.map
                  (fun n => transformElements ext.m n e.transforms)
                let result := jsTrim (String.join (transformed.map textOfNode))
                if e.defaultCleaner then ext.stringCleaner t result
                else .vstr result

/-- Transcription of extractResult (root-extractor.js lines 162-177): a
truthy custom result is returned as is; otherwise the generic strategy runs
when fallback is enabled, and null is returned when it is disabled. -/
def extractResult (ext : Externals) (extractor : Extractor) (t : FieldType)
    (o : Opts) : JSVal :=
  let result := select ext t o (extractor.fields t)
  if truthy result then result
  else if o.fallback then ext.generic t o
  else .vnull

/-- Transcription of RootExtractor.extract (root-extractor.js lines 179-241):
a wildcard extractor delegates wholly to its own extract method; content-only
mode resolves solely the content field in HTML mode with the caller-supplied
title as context; otherwise all fields are resolved in dependency order, and
a falsy url_and_domain result leaves url and domain null. -/
def rootExtract (ext : Externals) (extractor : Extractor) (o : Opts) :
    ExtractOut :=
  if extractor.domain == "*" then extractor.extractFull o
  else if o.contentOnly then
    .contentOnly (extractResult ext extractor .content
      { o with extractHtml := true, title := o.extractedTitle })
  else
    let title := extractResult ext extractor .title o
    let date_published := extractResult ext extractor .date_published o
    let author := extractResult ext extractor .author o
    let next_page_url := extractResult ext extractor .next_page_url o
    let content := extractResult ext extractor .content
      { o with extractHtml := true, title := title }
    let lead_image_url := extractResult ext extractor .lead_image_url
      { o with content := content }
    let excerpt := extractResult ext extractor .excerpt
      { o with content := content }
    let dek := extractResult ext extractor .dek
      { o with content := content, excerpt := excerpt }
    let word_count := extractResult ext extractor .word_count
      { o with content := content }
    let direction := extractResult ext extractor .direction
      { o with title := title }
    let ud := extractResult ext extractor .url_and_domain o
    .full {
      title := title
      content := content
      author := author
      date_published := date_published
      lead_image_url := lead_image_url
      dek := dek
      next_page_url := next_page_url
      url := if truthy ud then ud.urlField else .vnull
      domain := if truthy ud then ud.domainField else .vnull
      excerpt := excerpt
      word_count := word_count
      direction := direction
    }

/-- Demonstration matcher: a selector string matches exactly the elements
whose tag equals it.  The match depends only on the tag, never on children,
the way plain CSS tag selectors behave. -/
def tagMatcher : Matcher := fun s n =>
  match n with
  | .elem t _ _ => s == t
  | .text _ => false

def demoDoc : List Node :=
  [ Node.elem ("h1") [] [Node.text ("  Breaking News  ")],
    Node.elem ("h2") [] [Node.text ("Sub")] ]

example : (queryForest tagMatcher ("h1") demoDoc).length = 1 := by decide

example : jsTrim (textOfMatches tagMatcher demoDoc ("h1")) = "Breaking News" := by
  decide

example :
    findMatchingSelector tagMatcher demoDoc
      [Selector.str ("h1"), Selector.str ("h2")] false =
      some (Selector.str ("h1")) := by decide

/-- Demonstration externals: an identity region cleaner, a string cleaner
that visibly marks its input, an identity markdown converter, and a generic
strategy returning a fixed marker string. -/
def demoExt : Externals := {
  m := tagMatcher
  regionCleaner := fun _ _ n => n
  stringCleaner := fun _ s => .vstr (s ++ "-cleaned")
  turndown := fun s => s
  generic := fun _ _ => .vstr ("generic")
}

def demoOpts : Opts := { doc := demoDoc }

example :
    select demoExt .title demoOpts
        (some (.spec { selectors := [Selector.str ("h1")] })) =
      .vstr ("Breaking News-cleaned") := by decide

/-- A matcher is intrinsic when its verdict on an element depends only on the
tag and the attribute list, never on the children, the way plain CSS tag,
class and attribute selectors behave on the substrate. -/
def Intrinsic (m : Matcher) : Prop :=
  ∀ s t a ch ch2, m s (.elem t a ch) = m s (.elem t a ch2)

theorem matchesAny_removeNode (m : Matcher) (hm : Intrinsic m)
    (sels : List String) (n : Node) :
    matchesAny m sels (removeNode m sels n) = matchesAny m sels n := by
  cases n with
  | text s => rfl
  | elem t a ch =>
      simp only [removeNode, matchesAny]
      congr 1
      funext s
      exact hm s t a (removeForest m sels ch) ch

mutual

theorem removeNode_idem (m : Matcher) (hm : Intrinsic m) (sels : List String) :
    (n : Node) → removeNode m sels (removeNode m sels n) = removeNode m sels n
  | .text _ => rfl
  | .elem t a ch => by
      simp only [removeNode]
      exact congrArg (Node.elem t a) (removeForest_idem m hm sels ch)

theorem removeForest_idem (m : Matcher) (hm : Intrinsic m)
    (sels : List String) :
    (l : List Node) →
      removeForest m sels (removeForest m sels l) = removeForest m sels l
  | [] => rfl
  | n :: ns => by
      cases h : matchesAny m sels n with
      | true =>
          simp only [removeForest, h, if_true]
          exact removeForest_idem m hm sels ns
      | false =>
          have h2 : matchesAny m sels (removeNode m sels n) = false := by
            rw [matchesAny_removeNode m hm sels n]
            exact h
          simp only [removeForest, h, h2, Bool.false_eq_true, if_false]
          rw [removeNode_idem m hm sels n, removeForest_idem m hm sels ns]

end

/-- C1: findMatchingSelector iterates the candidate list in declared order
and returns the first selector satisfying its shape-specific predicate,
regardless of whether a later candidate would also match; if no candidate
satisfies its predicate, it returns none. -/
theorem C1_find_first_match (m : Matcher) (doc : List Node) (eh : Bool)
    (sels : List Selector) :
    (findMatchingSelector m doc sels eh = none ↔
      ∀ sel ∈ sels, selectorMatches m doc eh sel = false)
    ∧ (∀ sel, findMatchingSelector m doc sels eh = some sel →
        ∃ pre post, sels = pre ++ sel :: post ∧
          selectorMatches m doc eh sel = true ∧
          ∀ s ∈ pre, selectorMatches m doc eh s = false) := by
  induction sels with
  | nil =>
      refine ⟨?_, ?_⟩
      · simp [findMatchingSelector]
      · intro sel h
        simp [findMatchingSelector] at h
  | cons a rest ih =>
      cases ha : selectorMatches m doc eh a with
      | true =>
          have hf : findMatchingSelector m doc (a :: rest) eh = some a := by
            simp [findMatchingSelector, List.find?_cons, ha]
          refine ⟨?_, ?_⟩
          · rw [hf]
            simp only [reduceCtorEq, false_iff, not_forall]
            exact ⟨a, by simp, by simp [ha]⟩
          · intro sel h
            rw [hf] at h
            obtain rfl : a = sel := Option.some_injective _ h
            exact ⟨[], rest, rfl, ha, by simp⟩
      | false =>
          have hstep : findMatchingSelector m doc (a :: rest) eh =
              findMatchingSelector m doc rest eh := by
            simp [findMatchingSelector, List.find?_cons, ha]
          refine ⟨?_, ?_⟩
          · rw [hstep]
            constructor
            · intro h sel hmem
              rcases List.mem_cons.mp hmem with rfl | hmem2
              · exact ha
              · exact ih.1.mp h sel hmem2
            · intro h
              exact ih.1.mpr (fun sel hs => h sel (List.mem_cons_of_mem a hs))
          · intro sel h
            rw [hstep] at h
            obtain ⟨pre, post, heq, hm1, hpre⟩ := ih.2 sel h
            refine ⟨a :: pre, post, by rw [List.cons_append, heq], hm1, ?_⟩
            intro s hs
            rcases List.mem_cons.mp hs with rfl | hs2
            · exact ha
            · exact hpre s hs2

theorem C1_find_first_match_witness :
    ∃ pre post,
      ([Selector.str ("h1"), Selector.str ("h2")] : List Selector) =
          pre ++ Selector.str ("h1") :: post ∧
        selectorMatches tagMatcher demoDoc false (Selector.str ("h1")) = true ∧
        ∀ s ∈ pre, selectorMatches tagMatcher demoDoc false s = false :=
  (C1_find_first_match tagMatcher demoDoc false
      [Selector.str ("h1"), Selector.str ("h2")]).2
    (Selector.str ("h1")) (by decide)

theorem jsTrim_ne_empty {a : String} (h : jsTrim a ≠ "") : a ≠ "" := by
  intro he
  exact h (by rw [he]; rfl)

/-- C2: a pair selector matches in non-HTML mode exactly when one single
element matches it and that element carries an attribute whose trimmed value
is non-empty, so in particular never when more than one element matches; in
HTML-extraction mode it matches exactly when each of its two constituent
selectors matches at least one element, with no check on attribute
content. -/
theorem C2_pair_selector_semantics (m : Matcher) (doc : List Node)
    (s attrName : String) :
    (selectorMatches m doc false (.arr [s, attrName]) = true ↔
      ((queryForest m s doc).length = 1 ∧
        ∃ a, attrFirst m doc s attrName = some a ∧ jsTrim a ≠ ""))
    ∧ ((queryForest m s doc).length > 1 →
        selectorMatches m doc false (.arr [s, attrName]) = false)
    ∧ (selectorMatches m doc true (.arr [s, attrName]) = true ↔
        (queryForest m s doc ≠ [] ∧ queryForest m attrName doc ≠ [])) := by
  have hmain : selectorMatches m doc false (.arr [s, attrName]) = true ↔
      ((queryForest m s doc).length = 1 ∧
        ∃ a, attrFirst m doc s attrName = some a ∧ jsTrim a ≠ "") := by
    have hunf : selectorMatches m doc false (.arr [s, attrName]) =
        ((queryForest m s doc).length == 1 &&
          (match attrFirst m doc s attrName with
           | some a => a != "" && jsTrim a != ""
           | none => false)) := rfl
    cases hA : attrFirst m doc s attrName with
    | none => simp [hunf, hA]
    | some a =>
        rw [hunf, hA]
        simp only [Bool.and_eq_true, beq_iff_eq, bne_iff_ne, ne_eq]
        constructor
        · rintro ⟨h1, _, h3⟩
          exact ⟨h1, a, rfl, h3⟩
        · rintro ⟨h1, x, hx, h3⟩
          obtain rfl : a = x := Option.some_injective _ hx
          exact ⟨h1, jsTrim_ne_empty h3, h3⟩
  refine ⟨hmain, ?_, ?_⟩
  · intro hlen
    cases hsel : selectorMatches m doc false (.arr [s, attrName]) with
    | false => rfl
    | true =>
        obtain ⟨h1, _⟩ := hmain.mp hsel
        omega
  · have hunf : selectorMatches m doc true (.arr [s, attrName]) =
        ((true && !(queryForest m s doc).isEmpty) &&
          !(queryForest m attrName doc).isEmpty) := rfl
    rw [hunf]
    simp [Bool.and_eq_true, List.isEmpty_eq_false]

def imgDoc : List Node :=
  [ Node.elem ("img") [(("class"), ("hero")), (("src"), ("a.jpg"))] [],
    Node.elem ("img") [(("class"), ("hero")), (("src"), ("b.jpg"))] [] ]

theorem C2_pair_selector_semantics_witness :
    selectorMatches tagMatcher imgDoc false
      (Selector.arr [("img"), ("src")]) = false :=
  (C2_pair_selector_semantics tagMatcher imgDoc ("img") ("src")).2.1
    (by decide)

/-- Demonstration extractor with no custom rules and a non-wildcard
domain. -/
def demoExtractor : Extractor := {
  domain := "example.com"
  fields := fun _ => none
  extractFull := fun _ => .contentOnly .vnull
}

/-- C3: when select yields null because the rules of the field are absent or
no selector matched, extractResult returns exactly the generic strategy
applied to the same options when fallback has not been disabled, and null
when fallback is disabled. -/
theorem C3_null_fallback (ext : Externals) (extractor : Extractor)
    (t : FieldType) (o : Opts)
    (h : extractor.fields t = none ∨
      ∃ e, extractor.fields t = some (.spec e) ∧
        findMatchingSelector ext.m o.doc e.selectors o.extractHtml = none) :
    extractResult ext extractor t o =
      if o.fallback then ext.generic t o else .vnull := by
  have hsel : select ext t o (extractor.fields t) = .vnull := by
    rcases h with h | ⟨e, he, hf⟩
    · rw [h]
      rfl
    · rw [he]
      simp [select, hf]
  simp [extractResult, hsel, truthy]

theorem C3_null_fallback_witness :
    extractResult demoExt demoExtractor .author demoOpts =
      if demoOpts.fallback then demoExt.generic .author demoOpts
      else .vnull :=
  C3_null_fallback demoExt demoExtractor .author demoOpts (Or.inl rfl)

/-- C4: with a matched selector, HTML-extraction mode mutates the wrapped
region in the fixed order transform then clean before the per-type cleaner
and the renderer run, while text mode cleans the matched node first and
applies the transforms afterwards, before the trimmed text content is
taken. -/
theorem C4_mutation_order (ext : Externals) (t : FieldType) (o : Opts)
    (e : ExtractionSpec) (sel : Selector) (s : String)
    (hfind : findMatchingSelector ext.m o.doc e.selectors o.extractHtml =
      some sel) :
    (o.extractHtml = true →
      select ext t o (some (.spec e)) =
        renderContent ext o.contentType
          (ext.regionCleaner t e.defaultCleaner
            (cleanBySelectors ext.m
              (transformElements ext.m (wrapRegion ext.m o.doc sel)
                e.transforms) e.clean)))
    ∧ (o.extractHtml = false → sel = .str s →
        select ext t o (some (.spec e)) =
          (let result := jsTrim (String.join
            (((queryForest ext.m s o.doc).map (fun n =>
              transformElements ext.m (cleanBySelectors ext.m n e.clean)
                e.transforms)).map textOfNode));
           if e.defaultCleaner then ext.stringCleaner t result
           else .vstr result)) := by
  constructor
  · intro hh
    rw [hh] at hfind
    simp [select, hh, hfind]
  · intro hh hs
    subst hs
    rw [hh] at hfind
    simp [select, hh, hfind, List.map_map]
    rfl

def demoHtmlOpts : Opts := { doc := demoDoc, extractHtml := true }

def contentSpec : ExtractionSpec := { selectors := [Selector.str ("h1")] }

theorem C4_mutation_order_witness :
    select demoExt .content demoHtmlOpts (some (.spec contentSpec)) =
      renderContent demoExt demoHtmlOpts.contentType
        (demoExt.regionCleaner .content contentSpec.defaultCleaner
          (cleanBySelectors demoExt.m
            (transformElements demoExt.m
              (wrapRegion demoExt.m demoHtmlOpts.doc (Selector.str ("h1")))
              contentSpec.transforms) contentSpec.clean)) :=
  (C4_mutation_order demoExt .content demoHtmlOpts contentSpec
      (Selector.str ("h1")) ("h1") (by decide)).1 rfl

def imgOpts : Opts := { doc := [Node.elem ("img") [(("src"), (" x "))] []] }

def attrSpec : ExtractionSpec :=
  { selectors := [Selector.arr [("img"), ("src")]] }

/-- C5 as stated fails on the code: with the default cleaner enabled (the
default), the trimmed attribute is passed through the per-field-type cleaner,
so select does not return the bare trimmed attribute of the matched
element. -/
theorem C5_counterexample :
    select demoExt .lead_image_url imgOpts (some (.spec attrSpec)) =
        .vstr ("x-cleaned") ∧
      jsTrim ((attrFirst demoExt.m imgOpts.doc ("img") ("src")).getD ("")) =
        "x" ∧
      JSVal.vstr ("x-cleaned") ≠ JSVal.vstr ("x") := by
  refine ⟨by decide, by decide, by decide⟩

/-- C5 amended: in attribute mode select reads the named attribute of the
single matched element and trims it, applies no clean or transform mutation
to it, and passes it through the per-field-type cleaner exactly when
defaultCleaner is enabled (the default), returning the raw trimmed attribute
otherwise. -/
theorem C5_attribute_mode (ext : Externals) (t : FieldType) (o : Opts)
    (e : ExtractionSpec) (s attrName : String) (rest : List String)
    (hh : o.extractHtml = false)
    (hfind : findMatchingSelector ext.m o.doc e.selectors false =
      some (.arr (s :: attrName :: rest))) :
    ∃ a, attrFirst ext.m o.doc s attrName = some a ∧
      (queryForest ext.m s o.doc).length = 1 ∧
      jsTrim a ≠ "" ∧
      select ext t o (some (.spec e)) =
        (if e.defaultCleaner then ext.stringCleaner t (jsTrim a)
         else .vstr (jsTrim a)) := by
  have hmatch : selectorMatches ext.m o.doc false
      (.arr (s :: attrName :: rest)) = true :=
    List.find?_some hfind
  have hunf : selectorMatches ext.m o.doc false
      (.arr (s :: attrName :: rest)) =
      ((queryForest ext.m s o.doc).length == 1 &&
        (match attrFirst ext.m o.doc s attrName with
         | some a => a != "" && jsTrim a != ""
         | none => false)) := rfl
  rw [hunf] at hmatch
  cases hA : attrFirst ext.m o.doc s attrName with
  | none =>
      rw [hA] at hmatch
      simp at hmatch
  | some a =>
      rw [hA] at hmatch
      simp only [Bool.and_eq_true, beq_iff_eq, bne_iff_ne, ne_eq] at hmatch
      obtain ⟨h1, _, h3⟩ := hmatch
      refine ⟨a, rfl, h1, h3, ?_⟩
      simp [select, hh, hfind, hA]

theorem C5_attribute_mode_witness :
    ∃ a, attrFirst demoExt.m imgOpts.doc ("img") ("src") = some a ∧
      (queryForest demoExt.m ("img") imgOpts.doc).length = 1 ∧
      jsTrim a ≠ "" ∧
      select demoExt .lead_image_url imgOpts (some (.spec attrSpec)) =
        (if attrSpec.defaultCleaner then
          demoExt.stringCleaner .lead_image_url (jsTrim a)
         else .vstr (jsTrim a)) :=
  C5_attribute_mode demoExt .lead_image_url imgOpts attrSpec ("img") ("src")
    [] rfl (by decide)

def emptyConstExtractor : Extractor := {
  domain := "example.com"
  fields := fun t => match t with
    | .author => some (.strConst (""))
    | _ => none
  extractFull := fun _ => .contentOnly .vnull
}

/-- C6 as stated fails on the code for the empty string constant: the falsy
check on the rules swallows it, select returns null rather than the constant,
and the orchestrator invokes the fallback for the field. -/
theorem C6_counterexample :
    select demoExt .author demoOpts (some (.strConst (""))) = .vnull ∧
      JSVal.vnull ≠ JSVal.vstr ("") ∧
      extractResult demoExt emptyConstExtractor .author demoOpts =
        .vstr ("generic") ∧
      demoExt.generic .author demoOpts = .vstr ("generic") := by
  refine ⟨rfl, by decide, rfl, rfl⟩

/-- C6 amended: a non-empty literal string constant is returned by select
unchanged, with no selector resolution and no cleaning, and the orchestrator
keeps it without invoking the fallback; the empty string constant instead
behaves like absent rules, select returning null and the fallback being
invoked. -/
theorem C6_string_constant (ext : Externals) (extractor : Extractor)
    (t : FieldType) (o : Opts) (s : String) (hs : s ≠ "")
    (hf : extractor.fields t = some (.strConst s)) :
    select ext t o (extractor.fields t) = .vstr s ∧
      extractResult ext extractor t o = .vstr s := by
  have hb : (s == "") = false := beq_eq_false_iff_ne.mpr hs
  have hsel : select ext t o (extractor.fields t) = .vstr s := by
    rw [hf]
    simp [select, hb]
  refine ⟨hsel, ?_⟩
  have ht : truthy (.vstr s) = true := by
    simp [truthy, bne_iff_ne, hs]
  simp [extractResult, hsel, ht]

def constExtractor : Extractor := {
  domain := "example.com"
  fields := fun t => match t with
    | .author => some (.strConst ("Wikipedia Contributors"))
    | _ => none
  extractFull := fun _ => .contentOnly .vnull
}

theorem C6_string_constant_witness :
    select demoExt .author demoOpts (constExtractor.fields .author) =
        .vstr ("Wikipedia Contributors") ∧
      extractResult demoExt constExtractor .author demoOpts =
        .vstr ("Wikipedia Contributors") :=
  C6_string_constant demoExt constExtractor .author demoOpts
    ("Wikipedia Contributors") (by decide) rfl

/-- C7: for a non-wildcard extractor called with contentOnly set, extract
returns a record holding solely the content key, resolved in HTML-extraction
mode with the caller-supplied title as context and the caller-specified
content type, and no other field is resolved. -/
theorem C7_content_only (ext : Externals) (extractor : Extractor) (o : Opts)
    (hd : extractor.domain ≠ "*") (hc : o.contentOnly = true) :
    rootExtract ext extractor o =
      .contentOnly (extractResult ext extractor .content
        { o with extractHtml := true, title := o.extractedTitle }) := by
  have hb : (extractor.domain == "*") = false := beq_eq_false_iff_ne.mpr hd
  simp [rootExtract, hb, hc]

def demoContentOnlyOpts : Opts := { doc := demoDoc, contentOnly := true }

theorem C7_content_only_witness :
    rootExtract demoExt demoExtractor demoContentOnlyOpts =
      .contentOnly (extractResult demoExt demoExtractor .content
        { demoContentOnlyOpts with
            extractHtml := true
            title := demoContentOnlyOpts.extractedTitle }) :=
  C7_content_only demoExt demoExtractor demoContentOnlyOpts (by decide) rfl

/-- C8: in the full extraction path, a url_and_domain resolution producing no
result (a falsy value, custom or fallback) leaves the url and domain fields
of the result both null, while extract still returns a full record rather
than failing. -/
theorem C8_url_domain_default (ext : Externals) (extractor : Extractor)
    (o : Opts) (hd : extractor.domain ≠ "*") (hc : o.contentOnly = false)
    (hud : truthy (extractResult ext extractor .url_and_domain o) = false) :
    ∃ r, rootExtract ext extractor o = .full r ∧
      r.url = .vnull ∧ r.domain = .vnull := by
  have hb : (extractor.domain == "*") = false := beq_eq_false_iff_ne.mpr hd
  simp only [rootExtract, hb, Bool.false_eq_true, if_false, hc, hud]
  exact ⟨_, rfl, rfl, rfl⟩

def demoNoFallbackOpts : Opts := { doc := demoDoc, fallback := false }

theorem C8_url_domain_default_witness :
    ∃ r, rootExtract demoExt demoExtractor demoNoFallbackOpts = .full r ∧
      r.url = .vnull ∧ r.domain = .vnull :=
  C8_url_domain_default demoExt demoExtractor demoNoFallbackOpts (by decide)
    rfl (by decide)

/-- C9: clean removal is idempotent under intrinsic selector matching:
applying cleanBySelectors a second time with the same clean list to the
already cleaned region leaves the region unchanged. -/
theorem C9_clean_idempotent (m : Matcher) (hm : Intrinsic m) (region : Node)
    (clean : Option (List String)) :
    cleanBySelectors m (cleanBySelectors m region clean) clean =
      cleanBySelectors m region clean := by
  cases clean with
  | none => rfl
  | some sels => exact removeNode_idem m hm sels region

def demoRegion : Node :=
  .elem ("div") [] [.elem ("span") [] [.text ("ad")], .text ("keep")]

theorem C9_clean_idempotent_witness :
    cleanBySelectors tagMatcher
        (cleanBySelectors tagMatcher demoRegion (some [("span")]))
        (some [("span")]) =
      cleanBySelectors tagMatcher demoRegion (some [("span")]) :=
  C9_clean_idempotent tagMatcher (fun _ _ _ _ _ => rfl) demoRegion
    (some [("span")])

/-- C10: for every field type, any falsy resolver value (null, undefined,
the empty string, the number zero) is treated by extractResult as no result,
and with fallback enabled it is replaced by the result of the generic
strategy for the field. -/
theorem C10_falsy_fallback (ext : Externals) (extractor : Extractor)
    (t : FieldType) (o : Opts) (hfb : o.fallback = true)
    (h : select ext t o (extractor.fields t) = .vnull ∨
      select ext t o (extractor.fields t) = .vundefined ∨
      select ext t o (extractor.fields t) = .vstr ("") ∨
      select ext t o (extractor.fields t) = .vnum 0) :
    extractResult ext extractor t o = ext.generic t o := by
  have hfalsy : truthy (select ext t o (extractor.fields t)) = false := by
    rcases h with h | h | h | h <;> rw [h] <;> rfl
  simp [extractResult, hfalsy, hfb]

def spanDoc : List Node :=
  [Node.elem ("p") [] [Node.elem ("span") [] [Node.text ("x")]]]

def spanOpts : Opts := { doc := spanDoc }

def cleanAllSpec : ExtractionSpec :=
  { selectors := [Selector.str ("p")], clean := some [("span")],
    defaultCleaner := false }

def cleanAllExtractor : Extractor := {
  domain := "example.com"
  fields := fun t => match t with
    | .author => some (.spec cleanAllSpec)
    | _ => none
  extractFull := fun _ => .contentOnly .vnull
}

theorem C10_falsy_fallback_witness :
    extractResult demoExt cleanAllExtractor .author spanOpts =
      demoExt.generic .author spanOpts :=
  C10_falsy_fallback demoExt cleanAllExtractor .author spanOpts rfl
    (Or.inr (Or.inr (Or.inl (by decide))))

end Mercury
